import Mathlib

/-!
Verification of the resilient structured-data validation layer
(`lib/util/schema-utils/index.ts`): tolerant collection validators
(`LooseArray`, `LooseRecord`), format-coercing scalar validators,
the UTC date validator, and the circular-reference detector
(`isCircular` / `NotCircular`).
-/

set_option maxHeartbeats 1000000
set_option linter.unusedVariables false

/-! ## Issues (zod `ZodIssue` model)

An issue carries a code, a path of segments (field name or array index),
a message and a fatal flag. -/

inductive PathSeg where
  | idx (i : Nat)
  | key (k : String)
deriving DecidableEq, Repr

inductive IssueCode where
  | invalid_type
  | invalid_value
  | custom
deriving DecidableEq, Repr

structure ZIssue where
  code : IssueCode
  path : List PathSeg
  message : String
  fatal : Bool
deriving DecidableEq, Repr

/-! ## Object-graph model for the circular-reference detector

JavaScript values are modelled with explicit object identity: composite
values (arrays and plain objects) live in a heap, addressed by `Nat`;
a value is either a scalar (never circular) or a reference into the heap.
Reference equality of the source (`Set.has`) is address equality here. -/

inductive JSVal where
  | scalar (tag : Nat)
  | ref (addr : Nat)
deriving DecidableEq, Repr

inductive Node where
  | arr (elems : List JSVal)
  | obj (fields : List (String × JSVal))
deriving DecidableEq, Repr

structure Heap where
  nodes : List Node
deriving DecidableEq, Repr

/-- The values the detector recurses into: array elements
(`for (const childValue of value)`) or object values (`Object.values(value)`). -/
def Node.childVals : Node → List JSVal
  | .arr elems => elems
  | .obj fields => fields.map Prod.snd

/-- Number of heap addresses not yet in the visited set: the termination
measure of `isCircular`. -/
def unvisitedCount (h : Heap) (visited : List Nat) : Nat :=
  ((Finset.range h.nodes.length).filter (fun x => ¬ x ∈ visited)).card

lemma lt_length_of_get?_eq_some {l : List Node} {a : Nat} {nd : Node}
    (hg : l.get? a = some nd) : a < l.length := by
  by_contra hc
  push_neg at hc
  rw [List.get?_eq_none.mpr hc] at hg
  exact absurd hg (by simp)

lemma unvisitedCount_cons_lt (h : Heap) {a : Nat} {visited : List Nat}
    (ha : a ∉ visited) (hl : a < h.nodes.length) :
    unvisitedCount h (a :: visited) < unvisitedCount h visited := by
  unfold unvisitedCount
  have hset : (Finset.range h.nodes.length).filter (fun x => ¬ x ∈ a :: visited)
      = ((Finset.range h.nodes.length).filter (fun x => ¬ x ∈ visited)).erase a := by
    ext x
    simp only [Finset.mem_filter, Finset.mem_erase, List.mem_cons, Finset.mem_range]
    tauto
  rw [hset]
  exact Finset.card_erase_lt_of_mem
    (Finset.mem_filter.mpr ⟨Finset.mem_range.mpr hl, ha⟩)

/-- Model of `isCircular` (lines 322–352): scalars are never circular;
a composite already on the current path is circular; otherwise the node is
added to a copy of the visited set (`downstreamVisited`) and every child is
checked with that extended set. -/
def isCircular (h : Heap) (v : JSVal) (visited : List Nat) : Bool :=
  match v with
  | .scalar _ => false
  | .ref a =>
    if ha : a ∈ visited then
      true
    else
      match hget : h.nodes.get? a with
      | none => false
      | some (.arr elems) =>
        elems.attach.any (fun childValue => isCircular h childValue.1 (a :: visited))
      | some (.obj fields) =>
        (fields.map Prod.snd).attach.any (fun ov => isCircular h ov.1 (a :: visited))
termination_by unvisitedCount h visited
decreasing_by
  · exact unvisitedCount_cons_lt h ha (lt_length_of_get?_eq_some hget)
  · exact unvisitedCount_cons_lt h ha (lt_length_of_get?_eq_some hget)

lemma isCircular_scalar (h : Heap) (t : Nat) (visited : List Nat) :
    isCircular h (.scalar t) visited = false := by
  simp [isCircular]

lemma isCircular_ref_mem (h : Heap) {a : Nat} {visited : List Nat}
    (ha : a ∈ visited) : isCircular h (.ref a) visited = true := by
  simp [isCircular, ha]

lemma attach_any_eq {α : Type} (l : List α) (p : α → Bool) :
    (l.attach.any fun x => p x.1) = l.any p := by
  rw [Bool.eq_iff_iff]
  simp [List.any_eq_true]

/-- One-step unfolding of `isCircular` on an unvisited reference. -/
lemma isCircular_ref_eq (h : Heap) {a : Nat} {visited : List Nat}
    (ha : a ∉ visited) :
    isCircular h (.ref a) visited
      = match h.nodes.get? a with
        | none => false
        | some nd => nd.childVals.any (fun c => isCircular h c (a :: visited)) := by
  simp only [isCircular, dif_neg ha]
  split
  next heq => rw [heq]
  next elems heq =>
    rw [heq]
    simp only [Node.childVals]
    exact attach_any_eq elems (fun c => isCircular h c (a :: visited))
  next fields heq =>
    rw [heq]
    simp only [Node.childVals]
    exact attach_any_eq (fields.map Prod.snd) (fun c => isCircular h c (a :: visited))

lemma isCircular_ref_none (h : Heap) {a : Nat} {visited : List Nat}
    (ha : a ∉ visited) (hg : h.nodes.get? a = none) :
    isCircular h (.ref a) visited = false := by
  rw [isCircular_ref_eq h ha, hg]

lemma isCircular_ref_some (h : Heap) {a : Nat} {visited : List Nat} {nd : Node}
    (ha : a ∉ visited) (hg : h.nodes.get? a = some nd) :
    isCircular h (.ref a) visited
      = nd.childVals.any (fun c => isCircular h c (a :: visited)) := by
  rw [isCircular_ref_eq h ha, hg]

/-! ## Graph-theoretic characterization of `isCircular` -/

/-- `Edge h a b`: the heap object at address `a` directly references the
object at address `b` (as an array element or an object value). -/
def Edge (h : Heap) (a b : Nat) : Prop :=
  ∃ nd, h.nodes.get? a = some nd ∧ JSVal.ref b ∈ nd.childVals

/-- The recursion structure of `isCircular`: starting from address `a` with
the current root-to-node path `visited`, the depth-first walk reaches an
address already on its own path. -/
inductive Hits (h : Heap) : List Nat → Nat → Prop where
  | base {visited : List Nat} {a : Nat} : a ∈ visited → Hits h visited a
  | step {visited : List Nat} {a b : Nat} :
      a ∉ visited → Edge h a b → Hits h (a :: visited) b → Hits h visited a

lemma isCircular_of_hits {h : Heap} {visited : List Nat} {a : Nat}
    (hh : Hits h visited a) : isCircular h (.ref a) visited = true := by
  induction hh with
  | base hmem => exact isCircular_ref_mem _ hmem
  | step hnot hedge _ ih =>
    obtain ⟨nd, hget, hmem⟩ := hedge
    rw [isCircular_ref_some _ hnot hget]
    exact List.any_eq_true.mpr ⟨_, hmem, ih⟩

lemma hits_of_isCircular {h : Heap} :
    ∀ (n : Nat) (v : JSVal) (visited : List Nat),
      unvisitedCount h visited ≤ n → isCircular h v visited = true →
      ∃ a, v = .ref a ∧ Hits h visited a := by
  intro n
  induction n with
  | zero =>
    intro v visited hle htrue
    cases v with
    | scalar t => rw [isCircular_scalar] at htrue; cases htrue
    | ref a =>
      by_cases ha : a ∈ visited
      · exact ⟨a, rfl, .base ha⟩
      · cases hget : h.nodes.get? a with
        | none => rw [isCircular_ref_none _ ha hget] at htrue; cases htrue
        | some nd =>
          have hlt := unvisitedCount_cons_lt h ha (lt_length_of_get?_eq_some hget)
          omega
  | succ n ih =>
    intro v visited hle htrue
    cases v with
    | scalar t => rw [isCircular_scalar] at htrue; cases htrue
    | ref a =>
      by_cases ha : a ∈ visited
      · exact ⟨a, rfl, .base ha⟩
      · cases hget : h.nodes.get? a with
        | none => rw [isCircular_ref_none _ ha hget] at htrue; cases htrue
        | some nd =>
          rw [isCircular_ref_some _ ha hget] at htrue
          obtain ⟨c, hcmem, hctrue⟩ := List.any_eq_true.mp htrue
          have hlt := unvisitedCount_cons_lt h ha (lt_length_of_get?_eq_some hget)
          obtain ⟨b, rfl, hhits⟩ := ih c (a :: visited) (by omega) hctrue
          exact ⟨a, rfl, .step ha ⟨nd, hget, hcmem⟩ hhits⟩

/-- A `Hits` witness whose visited set consists of ancestors of `a` yields a
reachable cycle. -/
lemma cycle_of_hits {h : Heap} {visited : List Nat} {a : Nat}
    (hh : Hits h visited a) :
    (∀ x ∈ visited, Relation.TransGen (Edge h) x a) →
    ∃ c, Relation.ReflTransGen (Edge h) a c ∧ Relation.TransGen (Edge h) c c := by
  induction hh with
  | base hmem =>
    intro hinv
    exact ⟨_, Relation.ReflTransGen.refl, hinv _ hmem⟩
  | step hnot hedge _ ih =>
    intro hinv
    obtain ⟨c, hrc, hcc⟩ := ih (by
      intro x hx
      rcases List.mem_cons.mp hx with rfl | hx
      · exact Relation.TransGen.single hedge
      · exact Relation.TransGen.tail (hinv x hx) hedge)
    exact ⟨c, Relation.ReflTransGen.head hedge hrc, hcc⟩

lemma chain_append_last {α : Type} {r : α → α → Prop} :
    ∀ {l₁ : List α} {a c : α} (h₁ : List.Chain r a l₁)
      (hl : (a :: l₁).getLast (List.cons_ne_nil a l₁) = c) {l₂ : List α}
      (h₂ : List.Chain r c l₂), List.Chain r a (l₁ ++ l₂) := by
  intro l₁
  induction l₁ with
  | nil =>
    intro a c h₁ hl l₂ h₂
    simp only [List.getLast_singleton] at hl
    subst hl
    exact h₂
  | cons b l₁' ih =>
    intro a c h₁ hl l₂ h₂
    rcases List.chain_cons.mp h₁ with ⟨hab, hchain⟩
    rw [List.getLast_cons_cons] at hl
    exact List.chain_cons.mpr ⟨hab, ih hchain hl h₂⟩

/-- A reachable cycle yields a walk from the root address on which some
address occurs twice. -/
lemma walkdup_of_cycle {h : Heap} {a : Nat}
    (hc : ∃ c, Relation.ReflTransGen (Edge h) a c ∧ Relation.TransGen (Edge h) c c) :
    ∃ l, List.Chain (Edge h) a l ∧ ¬ (a :: l).Nodup := by
  obtain ⟨c, hac, hcc⟩ := hc
  obtain ⟨l₁, hchain₁, hlast₁⟩ := List.exists_chain_of_relationReflTransGen hac
  obtain ⟨b, hcb, hbc⟩ := Relation.TransGen.head'_iff.mp hcc
  obtain ⟨l₂, hchain₂, hlast₂⟩ := List.exists_chain_of_relationReflTransGen hbc
  refine ⟨l₁ ++ b :: l₂, ?_, ?_⟩
  · exact chain_append_last hchain₁ hlast₁ (List.chain_cons.mpr ⟨hcb, hchain₂⟩)
  · intro hnd
    rw [show a :: (l₁ ++ b :: l₂) = (a :: l₁) ++ (b :: l₂) by simp] at hnd
    rcases List.nodup_append.mp hnd with ⟨-, -, hdisj⟩
    exact hdisj (hlast₁ ▸ List.getLast_mem (List.cons_ne_nil a l₁))
      (hlast₂ ▸ List.getLast_mem (List.cons_ne_nil b l₂))

/-- A walk from `a` that repeats an address or meets the visited set makes
the detector's walk hit. -/
lemma hits_of_walk {h : Heap} :
    ∀ (l : List Nat) (a : Nat) (visited : List Nat),
      List.Chain (Edge h) a l →
      (¬ (a :: l).Nodup ∨ ∃ x ∈ a :: l, x ∈ visited) →
      Hits h visited a := by
  intro l
  induction l with
  | nil =>
    intro a visited _ hbad
    rcases hbad with hnd | ⟨x, hx, hxv⟩
    · exact absurd (List.nodup_singleton a) hnd
    · rw [List.mem_singleton] at hx
      subst hx
      exact .base hxv
  | cons b l' ih =>
    intro a visited hchain hbad
    by_cases hav : a ∈ visited
    · exact .base hav
    · rcases List.chain_cons.mp hchain with ⟨hab, hchain'⟩
      refine .step hav hab (ih b (a :: visited) hchain' ?_)
      rcases hbad with hnd | ⟨x, hx, hxv⟩
      · by_cases hmem : a ∈ b :: l'
        · exact Or.inr ⟨a, hmem, List.mem_cons_self a visited⟩
        · left
          intro hnd'
          exact hnd (List.nodup_cons.mpr ⟨hmem, hnd'⟩)
      · rcases List.mem_cons.mp hx with rfl | hx
        · exact absurd hxv hav
        · exact Or.inr ⟨x, hx, List.mem_cons_of_mem a hxv⟩

/-- The circularity property as the specification states it: some object
appears twice on a single path from the root. -/
def HasCircularPath (h : Heap) (v : JSVal) : Prop :=
  ∃ a l, v = .ref a ∧ List.Chain (Edge h) a l ∧ ¬ (a :: l).Nodup

/-- `isCircular` (with the default empty visited set) decides exactly the
presence of an object repeated along one root-to-leaf path. -/
theorem isCircular_iff_hasCircularPath (h : Heap) (v : JSVal) :
    isCircular h v [] = true ↔ HasCircularPath h v := by
  constructor
  · intro htrue
    obtain ⟨a, rfl, hhits⟩ :=
      hits_of_isCircular (unvisitedCount h []) v [] le_rfl htrue
    obtain ⟨l, hchain, hnd⟩ :=
      walkdup_of_cycle (cycle_of_hits hhits (by intro x hx; cases hx))
    exact ⟨a, l, rfl, hchain, hnd⟩
  · rintro ⟨a, l, rfl, hchain, hnd⟩
    exact isCircular_of_hits (hits_of_walk l a [] hchain (Or.inl hnd))

/-! ## `NotCircular` validator and fueled evaluation -/

/-- The issue added by `NotCircular.superRefine` (lines 354–364). -/
def circularIssue : ZIssue :=
  { code := .custom
    path := []
    message := "values cannot be circular data structures"
    fatal := true }

/-- Model of `NotCircular` (lines 354–364): `z.unknown().superRefine` accepts
any input and adds one fatal custom issue when `isCircular` holds; otherwise
the input passes through unchanged. -/
def NotCircular (h : Heap) (v : JSVal) : Except (List ZIssue) JSVal :=
  if isCircular h v [] then .error [circularIssue] else .ok v

/-- Fueled list combinator mirroring the early-`return true` loops of
`isCircular`; `none` marks fuel exhaustion in some recursive call. -/
def anyCircB (f : JSVal → Option Bool) : List JSVal → Option Bool
  | [] => some false
  | c :: cs =>
    match f c with
    | none => none
    | some true => some true
    | some false => anyCircB f cs

/-- `isCircular` with an explicit recursion-depth budget: `none` means the
budget was exhausted before the walk completed. -/
def isCircularFuel : Nat → Heap → JSVal → List Nat → Option Bool
  | 0, _, _, _ => none
  | _ + 1, _, .scalar _, _ => some false
  | fuel + 1, h, .ref a, visited =>
    if a ∈ visited then some true
    else
      match h.nodes.get? a with
      | none => some false
      | some nd => anyCircB (fun c => isCircularFuel fuel h c (a :: visited)) nd.childVals

lemma anyCircB_eq_any {f : JSVal → Option Bool} {g : JSVal → Bool}
    (hf : ∀ c, f c = some (g c)) (vs : List JSVal) :
    anyCircB f vs = some (vs.any g) := by
  induction vs with
  | nil => rfl
  | cons c cs ih =>
    rw [anyCircB, hf c]
    cases hgc : g c with
    | true => simp [hgc]
    | false => simp [hgc, ih]

/-- Fuel adequacy: any budget exceeding the number of unvisited heap objects
lets the fueled evaluator finish, agreeing with `isCircular`. -/
lemma isCircularFuel_eq_isCircular :
    ∀ (fuel : Nat) (h : Heap) (v : JSVal) (visited : List Nat),
      unvisitedCount h visited < fuel →
      isCircularFuel fuel h v visited = some (isCircular h v visited) := by
  intro fuel
  induction fuel with
  | zero => intro h v visited hlt; omega
  | succ fuel ih =>
    intro h v visited hlt
    cases v with
    | scalar t => rw [isCircular_scalar]; rfl
    | ref a =>
      by_cases ha : a ∈ visited
      · rw [isCircular_ref_mem _ ha]
        simp [isCircularFuel, ha]
      · cases hget : h.nodes.get? a with
        | none =>
          rw [isCircular_ref_none _ ha hget]
          simp only [isCircularFuel, if_neg ha]
          rw [hget]
        | some nd =>
          rw [isCircular_ref_some _ ha hget]
          have hlt' := unvisitedCount_cons_lt h ha (lt_length_of_get?_eq_some hget)
          have hrec : ∀ c, isCircularFuel fuel h c (a :: visited)
              = some (isCircular h c (a :: visited)) :=
            fun c => ih h c (a :: visited) (by omega)
          simp only [isCircularFuel, if_neg ha]
          rw [hget]
          exact anyCircB_eq_any hrec nd.childVals

/-! ## Claim C1 / C10 theorems -/

/-- A mapping containing itself as a value: address 0 holds
`{ self: <object 0> }`. -/
def selfRefHeap : Heap := ⟨[.obj [("self", .ref 0)]]⟩

/-- Two sibling mappings that share a reference to a third mapping which
does not reference back: `{ a: <1>, b: <2> }`, `<1> = { c: <3> }`,
`<2> = { c: <3> }`, `<3> = {}`. -/
def sharedDagHeap : Heap :=
  ⟨[.obj [("a", .ref 1), ("b", .ref 2)],
    .obj [("c", .ref 3)],
    .obj [("c", .ref 3)],
    .obj []]⟩

/-- C1: `NotCircular` classifies by single-path re-occurrence of object
identity: an input whose graph repeats an object on one root-to-leaf path
fails fatally with the circular-data issue, and any other input (including
shared acyclic references) passes through unmodified. -/
theorem NotCircular_classifies_by_path_reoccurrence (h : Heap) (v : JSVal) :
    (HasCircularPath h v →
      NotCircular h v = .error [circularIssue] ∧ circularIssue.fatal = true) ∧
    (¬ HasCircularPath h v → NotCircular h v = .ok v) := by
  constructor
  · intro hc
    refine ⟨?_, rfl⟩
    unfold NotCircular
    rw [if_pos ((isCircular_iff_hasCircularPath h v).mpr hc)]
  · intro hnc
    unfold NotCircular
    rw [if_neg (fun htrue => hnc ((isCircular_iff_hasCircularPath h v).mp htrue))]

lemma sharedDagHeap_not_circular :
    isCircular sharedDagHeap (.ref 0) [] = false := by
  have hade := isCircularFuel_eq_isCircular 5 sharedDagHeap (.ref 0) []
    (by simp [unvisitedCount, sharedDagHeap])
  have hval : isCircularFuel 5 sharedDagHeap (.ref 0) [] = some false := rfl
  rw [hval] at hade
  exact (Option.some.inj hade).symm

theorem NotCircular_classifies_witness :
    (HasCircularPath selfRefHeap (.ref 0) ∧
      NotCircular selfRefHeap (.ref 0) = .error [circularIssue]) ∧
    (¬ HasCircularPath sharedDagHeap (.ref 0) ∧
      NotCircular sharedDagHeap (.ref 0) = .ok (.ref 0)) := by
  have hc : HasCircularPath selfRefHeap (.ref 0) := by
    refine ⟨0, [0], rfl, ?_, by decide⟩
    exact List.chain_cons.mpr
      ⟨⟨.obj [("self", .ref 0)], rfl, by simp [Node.childVals]⟩, List.Chain.nil⟩
  have hnc : ¬ HasCircularPath sharedDagHeap (.ref 0) := fun hspec =>
    absurd ((isCircular_iff_hasCircularPath sharedDagHeap (.ref 0)).mpr hspec)
      (by rw [sharedDagHeap_not_circular]; decide)
  exact ⟨⟨hc, ((NotCircular_classifies_by_path_reoccurrence selfRefHeap (.ref 0)).1 hc).1⟩,
    ⟨hnc, (NotCircular_classifies_by_path_reoccurrence sharedDagHeap (.ref 0)).2 hnc⟩⟩

/-- C10: `isCircular` terminates on every finite heap, cyclic ones included:
a recursion-depth budget of one more than the number of heap objects always
suffices (the fueled evaluator completes and agrees with `isCircular`), and
`NotCircular` accordingly returns a defined result on every input. -/
theorem isCircular_terminates_depth_bounded (h : Heap) (v : JSVal) :
    isCircularFuel (h.nodes.length + 1) h v [] = some (isCircular h v [])
    ∧ (NotCircular h v = .error [circularIssue] ∨ NotCircular h v = .ok v) := by
  constructor
  · apply isCircularFuel_eq_isCircular
    have hle : unvisitedCount h [] ≤ h.nodes.length := by
      unfold unvisitedCount
      calc ((Finset.range h.nodes.length).filter (fun x => ¬ x ∈ ([] : List Nat))).card
          ≤ (Finset.range h.nodes.length).card := Finset.card_filter_le _ _
        _ = h.nodes.length := Finset.card_range _
    omega
  · unfold NotCircular
    by_cases hcirc : isCircular h v [] = true
    · rw [if_pos hcirc]; exact Or.inl rfl
    · rw [if_neg hcirc]; exact Or.inr rfl

/-! ## Untyped value model for the tolerant collection validators

For `LooseArray` / `LooseRecord` object identity is irrelevant, so inputs
are plain trees. An element validator is modelled as its `safeParse`
function: a map from an untyped value to either a typed output or a
non-empty issue list (`Except` models zod's success/error result). -/

inductive ZVal where
  | null
  | bool (b : Bool)
  | num (n : Int)
  | str (s : String)
  | arr (elems : List ZVal)
  | obj (fields : List (String × ZVal))

/-- JavaScript `typeof`-style tag used in zod `invalid_type` messages. -/
def ZVal.typeName : ZVal → String
  | .null => "null"
  | .bool _ => "boolean"
  | .num _ => "number"
  | .str _ => "string"
  | .arr _ => "array"
  | .obj _ => "object"

/-- The single root-path `invalid_type` issue produced by `z.array(...)` /
`z.record(...)` / `z.string()` on a container-shape mismatch. -/
def typeIssue (expected : String) (input : ZVal) : ZIssue :=
  { code := .invalid_type
    path := []
    message := "Expected " ++ expected ++ ", received " ++ input.typeName
    fatal := false }

/-- `ErrorContext` (lines 18–21): the argument handed to an `onError`
diagnostic callback. -/
structure ErrorCtx where
  error : List ZIssue
  input : ZVal

/-- Result of running a validator built with an `onError` callback: the
parse result together with the list of callback invocations (in order). -/
structure CbRun (β : Type) where
  result : Except (List ZIssue) β
  calls : List ErrorCtx

/-- Re-path one issue by prepending a segment (`issue.path.unshift(...)`). -/
def repathIssue (seg : PathSeg) (issue : ZIssue) : ZIssue :=
  { issue with path := seg :: issue.path }

/-! ## `LooseArray` (lines 37–81) -/

/-- The element loop of the no-callback branch of `LooseArray`
(lines 43–52): push successful elements, drop failing ones. -/
def looseArrayOutput {β : Type} (Elem : ZVal → Except (List ZIssue) β) :
    List ZVal → List β
  | [] => []
  | x :: xs =>
    match Elem x with
    | .ok d => d :: looseArrayOutput Elem xs
    | .error _ => looseArrayOutput Elem xs

/-- `LooseArray(Elem)` without `onError` (lines 41–53): `z.array(z.any())`
rejects non-arrays, then the transform keeps the successfully parsed
elements. -/
def LooseArray {β : Type} (Elem : ZVal → Except (List ZIssue) β)
    (input : ZVal) : Except (List ZIssue) (List β) :=
  match input with
  | .arr elems => .ok (looseArrayOutput Elem elems)
  | v => .error [typeIssue "array" v]

/-- The indexed element loop of the `onError` branch of `LooseArray`
(lines 59–72): collect outputs and the re-pathed issues of dropped
elements. -/
def looseArrayLoop {β : Type} (Elem : ZVal → Except (List ZIssue) β)
    (idx : Nat) : List ZVal → List β × List ZIssue
  | [] => ([], [])
  | x :: xs =>
    match Elem x with
    | .ok d =>
      (d :: (looseArrayLoop Elem (idx + 1) xs).1,
       (looseArrayLoop Elem (idx + 1) xs).2)
    | .error errs =>
      ((looseArrayLoop Elem (idx + 1) xs).1,
       errs.map (repathIssue (.idx idx)) ++ (looseArrayLoop Elem (idx + 1) xs).2)

/-- `LooseArray(Elem, { onError })` (lines 55–80): same filtering, plus one
callback invocation carrying the combined issues when at least one issue
was accumulated. -/
def LooseArrayOnError {β : Type} (Elem : ZVal → Except (List ZIssue) β)
    (input : ZVal) : CbRun (List β) :=
  match input with
  | .arr elems =>
    let run := looseArrayLoop Elem 0 elems
    { result := .ok run.1
      calls := if run.2.length ≠ 0 then [⟨run.2, input⟩] else [] }
  | v => { result := .error [typeIssue "array" v], calls := [] }

/-! ## `LooseRecord` (lines 108–207) -/

/-- JavaScript object assignment `output[key] = value`: overwrite in place
when the key already exists (keeping its position), append otherwise. -/
def objSet {β : Type} (out : List (String × β)) (k : String) (v : β) :
    List (String × β) :=
  if out.any (fun p => p.1 = k) then
    out.map (fun p => if p.1 = k then (k, v) else p)
  else
    out ++ [(k, v)]

/-- One step of the no-callback entry loop of `LooseRecord`
(lines 162–168): keep an entry only when key and value both parse, storing
it under the parsed key. -/
def looseRecordNoCbStep {β : Type} (Key : String → Except (List ZIssue) String)
    (Value : ZVal → Except (List ZIssue) β)
    (out : List (String × β)) (kv : String × ZVal) : List (String × β) :=
  match Key kv.1, Value kv.2 with
  | .ok k2, .ok v2 => objSet out k2 v2
  | _, _ => out

/-- The entry loop of the no-callback branch of `LooseRecord`
(lines 160–170). -/
def looseRecordOutput {β : Type} (Key : String → Except (List ZIssue) String)
    (Value : ZVal → Except (List ZIssue) β)
    (entries : List (String × ZVal)) : List (String × β) :=
  entries.foldl (looseRecordNoCbStep Key Value) []

/-- `LooseRecord(Key, Value)` without `onError` (lines 158–171):
`z.record(z.any())` rejects non-objects, then the transform keeps the
entries whose key and value both parse. -/
def LooseRecord {β : Type} (Key : String → Except (List ZIssue) String)
    (Value : ZVal → Except (List ZIssue) β)
    (input : ZVal) : Except (List ZIssue) (List (String × β)) :=
  match input with
  | .obj entries => .ok (looseRecordOutput Key Value entries)
  | v => .error [typeIssue "object" v]

/-- One step of the `onError` entry loop of `LooseRecord` (lines 177–198):
a failing key re-paths its issues under the raw input key and skips the
value; a failing value re-paths its issues the same way; otherwise the
entry is stored under the parsed key. -/
def looseRecordStep {β : Type} (Key : String → Except (List ZIssue) String)
    (Value : ZVal → Except (List ZIssue) β)
    (acc : List (String × β) × List ZIssue) (kv : String × ZVal) :
    List (String × β) × List ZIssue :=
  match Key kv.1 with
  | .error errs => (acc.1, acc.2 ++ errs.map (repathIssue (.key kv.1)))
  | .ok k2 =>
    match Value kv.2 with
    | .error errs => (acc.1, acc.2 ++ errs.map (repathIssue (.key kv.1)))
    | .ok v2 => (objSet acc.1 k2 v2, acc.2)

/-- `LooseRecord(Key, Value, { onError })` (lines 173–206). -/
def LooseRecordOnError {β : Type} (Key : String → Except (List ZIssue) String)
    (Value : ZVal → Except (List ZIssue) β)
    (input : ZVal) : CbRun (List (String × β)) :=
  match input with
  | .obj entries =>
    let run := entries.foldl (looseRecordStep Key Value) ([], [])
    { result := .ok run.1
      calls := if run.2.length ≠ 0 then [⟨run.2, input⟩] else [] }
  | v => { result := .error [typeIssue "object" v], calls := [] }

/-! ## Specification-side descriptions of the tolerant validators -/

/-- The elements on which the element validator succeeds, mapped to their
validated outputs, in original order. -/
def successOutputs {β : Type} (V : ZVal → Except (List ZIssue) β)
    (s : List ZVal) : List β :=
  s.filterMap (fun e => (V e).toOption)

/-- Entries on which key and value validators both succeed, mapped to their
validated key/value pair, in original order. -/
def keptEntries {β : Type} (Key : String → Except (List ZIssue) String)
    (Value : ZVal → Except (List ZIssue) β)
    (entries : List (String × ZVal)) : List (String × β) :=
  entries.filterMap (fun kv =>
    match Key kv.1, Value kv.2 with
    | .ok k2, .ok v2 => some (k2, v2)
    | _, _ => none)

/-- The issues one indexed element contributes to a `LooseArray` call:
none when it parses, its issues re-pathed under its index otherwise. -/
def elemIssues {β : Type} (V : ZVal → Except (List ZIssue) β)
    (p : Nat × ZVal) : List ZIssue :=
  match V p.2 with
  | .ok _ => []
  | .error errs => errs.map (repathIssue (.idx p.1))

/-- The combined issue list of one `LooseArray` call over the elements
numbered from `start`. -/
def arrayCombinedIssues {β : Type} (V : ZVal → Except (List ZIssue) β)
    (start : Nat) (s : List ZVal) : List ZIssue :=
  (s.enumFrom start).flatMap (elemIssues V)

/-- The issues one entry contributes to a `LooseRecord` call: the failing
key's issues — or, when the key parses, the failing value's issues —
re-pathed under the raw input key. -/
def entryIssues {β : Type} (Key : String → Except (List ZIssue) String)
    (Value : ZVal → Except (List ZIssue) β)
    (kv : String × ZVal) : List ZIssue :=
  match Key kv.1 with
  | .error errs => errs.map (repathIssue (.key kv.1))
  | .ok _ =>
    match Value kv.2 with
    | .error errs => errs.map (repathIssue (.key kv.1))
    | .ok _ => []

/-- The combined issue list of one `LooseRecord` call. -/
def recordCombinedIssues {β : Type} (Key : String → Except (List ZIssue) String)
    (Value : ZVal → Except (List ZIssue) β)
    (entries : List (String × ZVal)) : List ZIssue :=
  entries.flatMap (entryIssues Key Value)

lemma looseArrayOutput_eq_successOutputs {β : Type}
    (V : ZVal → Except (List ZIssue) β) (s : List ZVal) :
    looseArrayOutput V s = successOutputs V s := by
  induction s with
  | nil => rfl
  | cons x xs ih =>
    unfold looseArrayOutput
    cases hx : V x with
    | ok d =>
      rw [ih]
      simp [successOutputs, List.filterMap_cons, hx, Except.toOption]
    | error errs =>
      rw [ih]
      simp [successOutputs, List.filterMap_cons, hx, Except.toOption]

lemma looseArrayLoop_fst {β : Type} (V : ZVal → Except (List ZIssue) β) :
    ∀ (s : List ZVal) (idx : Nat),
      (looseArrayLoop V idx s).1 = looseArrayOutput V s := by
  intro s
  induction s with
  | nil => intro idx; rfl
  | cons x xs ih =>
    intro idx
    unfold looseArrayLoop looseArrayOutput
    cases hx : V x with
    | ok d => simp [hx, ih (idx + 1)]
    | error errs => simp [hx, ih (idx + 1)]

lemma looseArrayLoop_snd {β : Type} (V : ZVal → Except (List ZIssue) β) :
    ∀ (s : List ZVal) (idx : Nat),
      (looseArrayLoop V idx s).2 = arrayCombinedIssues V idx s := by
  intro s
  induction s with
  | nil => intro idx; rfl
  | cons x xs ih =>
    intro idx
    unfold looseArrayLoop
    rw [arrayCombinedIssues, List.enumFrom_cons, List.flatMap_cons]
    cases hx : V x with
    | ok d =>
      simp only [hx]
      rw [ih (idx + 1)]
      simp [elemIssues, hx, arrayCombinedIssues]
    | error errs =>
      simp only [hx]
      rw [ih (idx + 1)]
      simp [elemIssues, hx, arrayCombinedIssues]

lemma looseRecordStep_eval {β : Type} (Key : String → Except (List ZIssue) String)
    (Value : ZVal → Except (List ZIssue) β)
    (acc : List (String × β) × List ZIssue) (kv : String × ZVal) :
    looseRecordStep Key Value acc kv
      = (looseRecordNoCbStep Key Value acc.1 kv,
         acc.2 ++ entryIssues Key Value kv) := by
  unfold looseRecordStep looseRecordNoCbStep entryIssues
  cases hk : Key kv.1 with
  | error errs => simp [hk]
  | ok k2 =>
    cases hv : Value kv.2 with
    | error errs => simp [hk, hv]
    | ok v2 => simp [hk, hv]

lemma looseRecordFold_fst {β : Type} (Key : String → Except (List ZIssue) String)
    (Value : ZVal → Except (List ZIssue) β) :
    ∀ (entries : List (String × ZVal)) (out : List (String × β)) (iss : List ZIssue),
      (entries.foldl (looseRecordStep Key Value) (out, iss)).1
        = entries.foldl (looseRecordNoCbStep Key Value) out := by
  intro entries
  induction entries with
  | nil => intro out iss; rfl
  | cons kv rest ih =>
    intro out iss
    rw [List.foldl_cons, looseRecordStep_eval, ih, List.foldl_cons]

lemma looseRecordFold_snd {β : Type} (Key : String → Except (List ZIssue) String)
    (Value : ZVal → Except (List ZIssue) β) :
    ∀ (entries : List (String × ZVal)) (out : List (String × β)) (iss : List ZIssue),
      (entries.foldl (looseRecordStep Key Value) (out, iss)).2
        = iss ++ recordCombinedIssues Key Value entries := by
  intro entries
  induction entries with
  | nil => intro out iss; simp [recordCombinedIssues]
  | cons kv rest ih =>
    intro out iss
    rw [List.foldl_cons, looseRecordStep_eval, ih]
    simp [recordCombinedIssues, List.flatMap_cons]

/-! ## Claim C3 / C6 theorems -/

/-- C3: on any sequence input, `LooseArray` (in both configurations)
succeeds with exactly the outputs of the elements its element validator
accepts, in the original order — hence never more elements than the input —
and failing elements are skipped without aborting the rest. -/
theorem LooseArray_keeps_successes_in_order {β : Type}
    (V : ZVal → Except (List ZIssue) β) (s : List ZVal) :
    LooseArray V (.arr s) = .ok (successOutputs V s)
    ∧ (LooseArrayOnError V (.arr s)).result = .ok (successOutputs V s)
    ∧ (successOutputs V s).length ≤ s.length := by
  refine ⟨?_, ?_, ?_⟩
  · show Except.ok (looseArrayOutput V s) = _
    rw [looseArrayOutput_eq_successOutputs]
  · show Except.ok (looseArrayLoop V 0 s).1 = _
    rw [looseArrayLoop_fst, looseArrayOutput_eq_successOutputs]
  · exact List.length_filterMap_le _ _

/-- C6: configured without a diagnostic callback, `LooseArray` and
`LooseRecord` return the same result value as with one; the fast path
differs only in the callback side effect. -/
theorem Loose_onError_same_result {β γ : Type}
    (V : ZVal → Except (List ZIssue) β)
    (K : String → Except (List ZIssue) String)
    (W : ZVal → Except (List ZIssue) γ) (input : ZVal) :
    (LooseArrayOnError V input).result = LooseArray V input
    ∧ (LooseRecordOnError K W input).result = LooseRecord K W input := by
  constructor
  · cases input with
    | arr elems =>
      show Except.ok (looseArrayLoop V 0 elems).1 = _
      rw [looseArrayLoop_fst]
      rfl
    | null => rfl
    | bool b => rfl
    | num n => rfl
    | str s => rfl
    | obj fields => rfl
  · cases input with
    | obj entries =>
      show Except.ok (entries.foldl (looseRecordStep K W) ([], [])).1 = _
      rw [looseRecordFold_fst]
      rfl
    | null => rfl
    | bool b => rfl
    | num n => rfl
    | str s => rfl
    | arr elems => rfl

/-! ## Claim C2: entry-keeping of `LooseRecord` -/

lemma objSet_append {β : Type} {out : List (String × β)} {k : String} {v : β}
    (hk : k ∉ out.map Prod.fst) : objSet out k v = out ++ [(k, v)] := by
  unfold objSet
  rw [if_neg]
  intro hc
  obtain ⟨p, hp, hpk⟩ := List.any_eq_true.mp hc
  exact hk (List.mem_map.mpr ⟨p, hp, of_decide_eq_true hpk⟩)

lemma looseRecordNoCbStep_key_error {β : Type}
    {Key : String → Except (List ZIssue) String}
    {Value : ZVal → Except (List ZIssue) β}
    {out : List (String × β)} {kv : String × ZVal} {errs : List ZIssue}
    (hk : Key kv.1 = .error errs) :
    looseRecordNoCbStep Key Value out kv = out := by
  simp [looseRecordNoCbStep, hk]

lemma looseRecordNoCbStep_value_error {β : Type}
    {Key : String → Except (List ZIssue) String}
    {Value : ZVal → Except (List ZIssue) β}
    {out : List (String × β)} {kv : String × ZVal} {k2 : String}
    {errs : List ZIssue}
    (hk : Key kv.1 = .ok k2) (hv : Value kv.2 = .error errs) :
    looseRecordNoCbStep Key Value out kv = out := by
  simp [looseRecordNoCbStep, hk, hv]

lemma looseRecordNoCbStep_ok {β : Type}
    {Key : String → Except (List ZIssue) String}
    {Value : ZVal → Except (List ZIssue) β}
    {out : List (String × β)} {kv : String × ZVal} {k2 : String} {v2 : β}
    (hk : Key kv.1 = .ok k2) (hv : Value kv.2 = .ok v2) :
    looseRecordNoCbStep Key Value out kv = objSet out k2 v2 := by
  simp [looseRecordNoCbStep, hk, hv]

lemma looseRecordNoCb_fold_eq_kept {β : Type}
    (Key : String → Except (List ZIssue) String)
    (Value : ZVal → Except (List ZIssue) β) :
    ∀ (entries : List (String × ZVal)) (acc : List (String × β)),
      (∀ k ∈ acc.map Prod.fst, k ∉ (keptEntries Key Value entries).map Prod.fst) →
      ((keptEntries Key Value entries).map Prod.fst).Nodup →
      entries.foldl (looseRecordNoCbStep Key Value) acc
        = acc ++ keptEntries Key Value entries := by
  intro entries
  induction entries with
  | nil => intro acc _ _; simp [keptEntries]
  | cons kv rest ih =>
    intro acc hdisj hnd
    rw [List.foldl_cons]
    cases hk : Key kv.1 with
    | error errs =>
      have hkept : keptEntries Key Value (kv :: rest) = keptEntries Key Value rest := by
        unfold keptEntries
        rw [List.filterMap_cons]
        simp [hk]
      rw [hkept] at hdisj hnd
      rw [looseRecordNoCbStep_key_error hk, ih acc hdisj hnd, hkept]
    | ok k2 =>
      cases hv : Value kv.2 with
      | error errs =>
        have hkept : keptEntries Key Value (kv :: rest) = keptEntries Key Value rest := by
          unfold keptEntries
          rw [List.filterMap_cons]
          simp [hk, hv]
        rw [hkept] at hdisj hnd
        rw [looseRecordNoCbStep_value_error hk hv, ih acc hdisj hnd, hkept]
      | ok v2 =>
        have hkept : keptEntries Key Value (kv :: rest)
            = (k2, v2) :: keptEntries Key Value rest := by
          unfold keptEntries
          rw [List.filterMap_cons]
          simp [hk, hv, keptEntries]
        have hk2kept : k2 ∈ (keptEntries Key Value (kv :: rest)).map Prod.fst := by
          rw [hkept]; simp
        have hk2acc : k2 ∉ acc.map Prod.fst := fun hmem => hdisj k2 hmem hk2kept
        have hndrest : ((keptEntries Key Value rest).map Prod.fst).Nodup := by
          rw [hkept] at hnd
          exact (List.nodup_cons.mp (by simpa using hnd)).2
        have hk2rest : k2 ∉ (keptEntries Key Value rest).map Prod.fst := by
          rw [hkept] at hnd
          exact (List.nodup_cons.mp (by simpa using hnd)).1
        have hdisj' : ∀ k ∈ (acc ++ [(k2, v2)]).map Prod.fst,
            k ∉ (keptEntries Key Value rest).map Prod.fst := by
          intro k hkmem
          rw [List.map_append] at hkmem
          rcases List.mem_append.mp hkmem with hmem | hmem
          · intro hc
            exact hdisj k hmem (by rw [hkept]; simp [hc])
          · simp only [List.map_cons, List.map_nil, List.mem_singleton] at hmem
            subst hmem
            exact hk2rest
        rw [looseRecordNoCbStep_ok hk hv, objSet_append hk2acc,
          ih (acc ++ [(k2, v2)]) hdisj' hndrest, hkept]
        simp

lemma looseRecordOutput_eq_kept {β : Type}
    (Key : String → Except (List ZIssue) String)
    (Value : ZVal → Except (List ZIssue) β)
    (entries : List (String × ZVal))
    (hnd : ((keptEntries Key Value entries).map Prod.fst).Nodup) :
    looseRecordOutput Key Value entries = keptEntries Key Value entries := by
  unfold looseRecordOutput
  rw [looseRecordNoCb_fold_eq_kept Key Value entries [] (by simp) hnd]
  simp

/-- Identity key validator (e.g. `z.string()` on keys, which are always
strings). -/
def idKey : String → Except (List ZIssue) String := fun k => .ok k

/-- Identity value validator (`z.any()`-like pass-through). -/
def idValue : ZVal → Except (List ZIssue) ZVal := fun v => .ok v

/-- A key validator whose transform collapses every key to `"x"`. -/
def collapseKey : String → Except (List ZIssue) String := fun _ => .ok "x"

/-- C2 as stated fails on the code: with a key validator that transforms
both raw keys of `{a: 1, b: 2}` to `"x"` and a value validator accepting
everything, both validators succeed on the entry `("a", 1)`, yet the
output is exactly `{x: 2}` — the entry's validated pair `("x", 1)` is not
kept (the later entry overwrote it). -/
theorem LooseRecord_keeps_iff_counterexample :
    collapseKey "a" = .ok "x"
    ∧ idValue (ZVal.num 1) = .ok (ZVal.num 1)
    ∧ LooseRecord collapseKey idValue
        (.obj [("a", ZVal.num 1), ("b", ZVal.num 2)])
        = .ok [("x", ZVal.num 2)]
    ∧ ("x", ZVal.num 1) ∉ [("x", ZVal.num 2)] := by
  refine ⟨rfl, rfl, rfl, ?_⟩
  intro hmem
  rw [List.mem_singleton] at hmem
  have : ZVal.num 1 = ZVal.num 2 := congrArg Prod.snd hmem
  simp at this

/-- C2 (amended): for every record input whose kept entries have pairwise
distinct validated keys, `LooseRecord(K, V)` returns exactly the entries on
which both validators succeed, stored under the validated (possibly
transformed) key; every fully-successful entry appears in the output, and
every output entry stems from a fully-successful input entry — an entry
with a failing key or failing value is never included, even partially.
(When validated keys collide, the last successful entry wins, which is
what the counterexample exhibits.) -/
theorem LooseRecord_keeps_entries_iff {β : Type}
    (Key : String → Except (List ZIssue) String)
    (Value : ZVal → Except (List ZIssue) β)
    (entries : List (String × ZVal))
    (hnd : ((keptEntries Key Value entries).map Prod.fst).Nodup) :
    LooseRecord Key Value (.obj entries) = .ok (keptEntries Key Value entries)
    ∧ (∀ kv ∈ entries, ∀ k2 v2, Key kv.1 = .ok k2 → Value kv.2 = .ok v2 →
        (k2, v2) ∈ keptEntries Key Value entries)
    ∧ (∀ p ∈ keptEntries Key Value entries, ∃ kv ∈ entries,
        Key kv.1 = .ok p.1 ∧ Value kv.2 = .ok p.2) := by
  refine ⟨?_, ?_, ?_⟩
  · show Except.ok (looseRecordOutput Key Value entries) = _
    rw [looseRecordOutput_eq_kept Key Value entries hnd]
  · intro kv hkv k2 v2 hk hv
    unfold keptEntries
    exact List.mem_filterMap.mpr ⟨kv, hkv, by rw [hk, hv]⟩
  · intro p hp
    unfold keptEntries at hp
    obtain ⟨kv, hkv, hf⟩ := List.mem_filterMap.mp hp
    refine ⟨kv, hkv, ?_⟩
    revert hf
    cases hk : Key kv.1 with
    | error errs => intro hf; cases hf
    | ok k2 =>
      cases hv : Value kv.2 with
      | error errs => intro hf; cases hf
      | ok v2 =>
        intro hf
        obtain rfl : (k2, v2) = p := Option.some.inj hf
        exact ⟨rfl, rfl⟩

theorem LooseRecord_keeps_entries_iff_witness :
    ((keptEntries idKey idValue [("a", ZVal.num 1)]).map Prod.fst).Nodup
    ∧ LooseRecord idKey idValue (.obj [("a", ZVal.num 1)])
        = .ok (keptEntries idKey idValue [("a", ZVal.num 1)]) := by
  have hnd : ((keptEntries idKey idValue [("a", ZVal.num 1)]).map Prod.fst).Nodup := by
    simp [keptEntries, idKey, idValue]
  exact ⟨hnd, (LooseRecord_keeps_entries_iff idKey idValue _ hnd).1⟩

/-! ## Claim C7: container-shape mismatch and empty input -/

/-- C7: a non-sequence input always fails both configurations of
`LooseArray` with a single `invalid_type` issue at the root path, and the
empty sequence is valid with empty output and no callback invocation. -/
theorem LooseArray_rejects_nonsequences {β : Type}
    (V : ZVal → Except (List ZIssue) β) :
    (∀ input : ZVal, (∀ elems, input ≠ .arr elems) →
      LooseArray V input = .error [typeIssue "array" input]
      ∧ (LooseArrayOnError V input).result = .error [typeIssue "array" input]
      ∧ (LooseArrayOnError V input).calls = []
      ∧ (typeIssue "array" input).code = .invalid_type
      ∧ (typeIssue "array" input).path = [])
    ∧ LooseArray V (.arr []) = .ok []
    ∧ (LooseArrayOnError V (.arr [])).result = .ok []
    ∧ (LooseArrayOnError V (.arr [])).calls = [] := by
  refine ⟨?_, rfl, rfl, rfl⟩
  intro input hne
  cases input with
  | arr elems => exact absurd rfl (hne elems)
  | null => exact ⟨rfl, rfl, rfl, rfl, rfl⟩
  | bool b => exact ⟨rfl, rfl, rfl, rfl, rfl⟩
  | num n => exact ⟨rfl, rfl, rfl, rfl, rfl⟩
  | str s => exact ⟨rfl, rfl, rfl, rfl, rfl⟩
  | obj fields => exact ⟨rfl, rfl, rfl, rfl, rfl⟩

theorem LooseArray_rejects_nonsequences_witness :
    (∀ elems, ZVal.str "hi" ≠ ZVal.arr elems)
    ∧ LooseArray idValue (ZVal.str "hi")
        = .error [typeIssue "array" (ZVal.str "hi")] := by
  have hne : ∀ elems, ZVal.str "hi" ≠ ZVal.arr elems := fun elems hc => by cases hc
  exact ⟨hne, ((LooseArray_rejects_nonsequences idValue).1 (ZVal.str "hi") hne).1⟩

/-! ## Claim C4: diagnostic-callback contract -/

/-- Whether a parse result is a success. -/
def parseOk {β : Type} : Except (List ZIssue) β → Bool
  | .ok _ => true
  | .error _ => false

lemma elemIssues_eq_nil_iff {β : Type} {V : ZVal → Except (List ZIssue) β}
    (hwf : ∀ x errs, V x = .error errs → errs ≠ []) (p : Nat × ZVal) :
    elemIssues V p = [] ↔ parseOk (V p.2) = true := by
  unfold elemIssues parseOk
  cases hx : V p.2 with
  | ok d => simp
  | error errs =>
    simp only [List.map_eq_nil_iff]
    simp [hwf p.2 errs hx]

lemma entryIssues_eq_nil_iff {β : Type}
    {Key : String → Except (List ZIssue) String}
    {Value : ZVal → Except (List ZIssue) β}
    (hwfK : ∀ k errs, Key k = .error errs → errs ≠ [])
    (hwfV : ∀ x errs, Value x = .error errs → errs ≠ [])
    (kv : String × ZVal) :
    entryIssues Key Value kv = []
      ↔ parseOk (Key kv.1) = true ∧ parseOk (Value kv.2) = true := by
  unfold entryIssues parseOk
  cases hk : Key kv.1 with
  | error errs =>
    simp only [List.map_eq_nil_iff]
    simp [hwfK kv.1 errs hk]
  | ok k2 =>
    cases hv : Value kv.2 with
    | error errs =>
      simp only [List.map_eq_nil_iff]
      simp [hwfV kv.2 errs hv]
    | ok v2 => simp

lemma arrayCombined_eq_nil_iff {β : Type} {V : ZVal → Except (List ZIssue) β}
    (hwf : ∀ x errs, V x = .error errs → errs ≠ [])
    (start : Nat) (s : List ZVal) :
    arrayCombinedIssues V start s = [] ↔ ∀ e ∈ s, parseOk (V e) = true := by
  unfold arrayCombinedIssues
  rw [List.flatMap_eq_nil_iff]
  constructor
  · intro hall e he
    have hmem : ∃ p ∈ s.enumFrom start, p.2 = e := by
      have : e ∈ (s.enumFrom start).map Prod.snd := by
        rw [List.enumFrom_map_snd]
        exact he
      obtain ⟨p, hp, hpe⟩ := List.mem_map.mp this
      exact ⟨p, hp, hpe⟩
    obtain ⟨p, hp, hpe⟩ := hmem
    rw [← hpe]
    exact (elemIssues_eq_nil_iff hwf p).mp (hall p hp)
  · intro hall p hp
    refine (elemIssues_eq_nil_iff hwf p).mpr (hall p.2 ?_)
    have : p.2 ∈ (s.enumFrom start).map Prod.snd := List.mem_map.mpr ⟨p, hp, rfl⟩
    rwa [List.enumFrom_map_snd] at this

lemma recordCombined_eq_nil_iff {β : Type}
    {Key : String → Except (List ZIssue) String}
    {Value : ZVal → Except (List ZIssue) β}
    (hwfK : ∀ k errs, Key k = .error errs → errs ≠ [])
    (hwfV : ∀ x errs, Value x = .error errs → errs ≠ [])
    (entries : List (String × ZVal)) :
    recordCombinedIssues Key Value entries = []
      ↔ ∀ kv ∈ entries, parseOk (Key kv.1) = true ∧ parseOk (Value kv.2) = true := by
  unfold recordCombinedIssues
  rw [List.flatMap_eq_nil_iff]
  constructor
  · intro hall kv hkv
    exact (entryIssues_eq_nil_iff hwfK hwfV kv).mp (hall kv hkv)
  · intro hall kv hkv
    exact (entryIssues_eq_nil_iff hwfK hwfV kv).mpr (hall kv hkv)

lemma looseArrayOnError_calls_eq {β : Type}
    (V : ZVal → Except (List ZIssue) β) (elems : List ZVal) :
    (LooseArrayOnError V (.arr elems)).calls
      = if (arrayCombinedIssues V 0 elems).length ≠ 0 then
          [⟨arrayCombinedIssues V 0 elems, .arr elems⟩]
        else [] := by
  show (if (looseArrayLoop V 0 elems).2.length ≠ 0 then
      [{ error := (looseArrayLoop V 0 elems).2, input := ZVal.arr elems : ErrorCtx }]
    else []) = _
  rw [looseArrayLoop_snd]

lemma looseRecordOnError_calls_eq {β : Type}
    (Key : String → Except (List ZIssue) String)
    (Value : ZVal → Except (List ZIssue) β)
    (entries : List (String × ZVal)) :
    (LooseRecordOnError Key Value (.obj entries)).calls
      = if (recordCombinedIssues Key Value entries).length ≠ 0 then
          [⟨recordCombinedIssues Key Value entries, .obj entries⟩]
        else [] := by
  show (if (entries.foldl (looseRecordStep Key Value) ([], [])).2.length ≠ 0 then
      [{ error := (entries.foldl (looseRecordStep Key Value) ([], [])).2,
         input := ZVal.obj entries : ErrorCtx }]
    else []) = _
  rw [looseRecordFold_snd]
  simp

/-- C4: per top-level call of `LooseArray` / `LooseRecord` with a callback
configured, the callback runs at most once; it runs exactly when at least
one element/entry was dropped (never on fully valid or empty input, nor on
a container-shape failure); and its argument carries the original input
together with the combined issue list, re-pathed by element index
respectively raw input key. The hypotheses state zod's invariant that a
failed parse carries at least one issue. -/
theorem Loose_onError_once_iff_dropped {β γ : Type}
    (V : ZVal → Except (List ZIssue) β)
    (K : String → Except (List ZIssue) String)
    (W : ZVal → Except (List ZIssue) γ)
    (hwfV : ∀ x errs, V x = .error errs → errs ≠ [])
    (hwfK : ∀ k errs, K k = .error errs → errs ≠ [])
    (hwfW : ∀ x errs, W x = .error errs → errs ≠ []) :
    ∀ input : ZVal,
      (LooseArrayOnError V input).calls.length ≤ 1
      ∧ (LooseRecordOnError K W input).calls.length ≤ 1
      ∧ (∀ elems, input = .arr elems →
          ((LooseArrayOnError V input).calls ≠ []
              ↔ ∃ e ∈ elems, parseOk (V e) = false)
          ∧ ∀ ctx ∈ (LooseArrayOnError V input).calls,
              ctx.input = input ∧ ctx.error = arrayCombinedIssues V 0 elems)
      ∧ ((∀ elems, input ≠ .arr elems) → (LooseArrayOnError V input).calls = [])
      ∧ (∀ entries, input = .obj entries →
          ((LooseRecordOnError K W input).calls ≠ []
              ↔ ∃ kv ∈ entries,
                  parseOk (K kv.1) = false ∨ parseOk (W kv.2) = false)
          ∧ ∀ ctx ∈ (LooseRecordOnError K W input).calls,
              ctx.input = input ∧ ctx.error = recordCombinedIssues K W entries)
      ∧ ((∀ entries, input ≠ .obj entries) → (LooseRecordOnError K W input).calls = []) := by
  intro input
  refine ⟨?_, ?_, ?_, ?_, ?_, ?_⟩
  · cases input with
    | arr elems =>
      rw [looseArrayOnError_calls_eq]
      split <;> simp
    | null => simp [LooseArrayOnError]
    | bool b => simp [LooseArrayOnError]
    | num n => simp [LooseArrayOnError]
    | str s => simp [LooseArrayOnError]
    | obj fields => simp [LooseArrayOnError]
  · cases input with
    | obj entries =>
      rw [looseRecordOnError_calls_eq]
      split <;> simp
    | null => simp [LooseRecordOnError]
    | bool b => simp [LooseRecordOnError]
    | num n => simp [LooseRecordOnError]
    | str s => simp [LooseRecordOnError]
    | arr elems => simp [LooseRecordOnError]
  · rintro elems rfl
    rw [looseArrayOnError_calls_eq]
    constructor
    · constructor
      · intro hne
        by_contra hall
        push_neg at hall
        have hnil : arrayCombinedIssues V 0 elems = [] :=
          (arrayCombined_eq_nil_iff hwfV 0 elems).mpr (by
            intro e he
            have := hall e he
            cases hok : parseOk (V e) with
            | true => rfl
            | false => exact absurd hok this)
        rw [hnil] at hne
        simp at hne
      · intro hdrop
        obtain ⟨e, he, hfail⟩ := hdrop
        have hne : arrayCombinedIssues V 0 elems ≠ [] := by
          intro hnil
          have := (arrayCombined_eq_nil_iff hwfV 0 elems).mp hnil e he
          rw [hfail] at this
          cases this
        have hcond : (arrayCombinedIssues V 0 elems).length ≠ 0 :=
          fun hlen => hne (List.length_eq_zero.mp hlen)
        rw [if_pos hcond]
        simp
    · intro ctx hctx
      revert hctx
      split
      · intro hctx
        rw [List.mem_singleton] at hctx
        subst hctx
        exact ⟨rfl, rfl⟩
      · intro hctx
        cases hctx
  · intro hne
    cases input with
    | arr elems => exact absurd rfl (hne elems)
    | null => rfl
    | bool b => rfl
    | num n => rfl
    | str s => rfl
    | obj fields => rfl
  · rintro entries rfl
    rw [looseRecordOnError_calls_eq]
    constructor
    · constructor
      · intro hne
        by_contra hall
        push_neg at hall
        have hnil : recordCombinedIssues K W entries = [] :=
          (recordCombined_eq_nil_iff hwfK hwfW entries).mpr (by
            intro kv hkv
            have h1 := hall kv hkv
            constructor
            · cases hok : parseOk (K kv.1) with
              | true => rfl
              | false => exact absurd hok h1.1
            · cases hok : parseOk (W kv.2) with
              | true => rfl
              | false => exact absurd hok h1.2)
        rw [hnil] at hne
        simp at hne
      · intro hdrop
        obtain ⟨kv, hkv, hfail⟩ := hdrop
        have hne : recordCombinedIssues K W entries ≠ [] := by
          intro hnil
          have := (recordCombined_eq_nil_iff hwfK hwfW entries).mp hnil kv hkv
          rcases hfail with hf | hf
          · rw [hf] at this; cases this.1
          · rw [hf] at this; cases this.2
        have hcond : (recordCombinedIssues K W entries).length ≠ 0 :=
          fun hlen => hne (List.length_eq_zero.mp hlen)
        rw [if_pos hcond]
        simp
    · intro ctx hctx
      revert hctx
      split
      · intro hctx
        rw [List.mem_singleton] at hctx
        subst hctx
        exact ⟨rfl, rfl⟩
      · intro hctx
        cases hctx
  · intro hne
    cases input with
    | obj entries => exact absurd rfl (hne entries)
    | null => rfl
    | bool b => rfl
    | num n => rfl
    | str s => rfl
    | arr elems => rfl

theorem Loose_onError_once_iff_dropped_witness :
    (∀ x errs, idValue x = .error errs → errs ≠ [])
    ∧ (∀ k errs, idKey k = .error errs → errs ≠ [])
    ∧ (LooseArrayOnError idValue (ZVal.arr [])).calls.length ≤ 1
    ∧ (LooseRecordOnError idKey idValue (ZVal.arr [])).calls.length ≤ 1 := by
  have hwfV : ∀ x errs, idValue x = .error errs → errs ≠ [] :=
    fun x errs h => Except.noConfusion h
  have hwfK : ∀ k errs, idKey k = .error errs → errs ≠ [] :=
    fun k errs h => Except.noConfusion h
  have happ := Loose_onError_once_iff_dropped idValue idKey idValue
    hwfV hwfK hwfV (ZVal.arr [])
  exact ⟨hwfV, hwfK, happ.1, happ.2.1⟩

/-! ## Claim C5: `LooseRecord` call-signature resolution (lines 130–155)

An argument at a `LooseRecord` call site is either a validator instance
(`instanceof z.ZodType`) or a plain options object; the runtime dispatch
inspects only presence and that instance check. -/

inductive SchemaOrOpts (σ ω : Type) where
  | schema (s : σ)
  | opts (o : ω)
deriving DecidableEq, Repr

/-- The configuration the variadic `LooseRecord` body settles on:
`Key = none` stands for the default key schema (`z.any()`), and
`opts = none` for the empty options object (no diagnostics). The value
slot holds whatever the dispatch assigned to it — uninspected, exactly as
the source's cast does. -/
structure ResolvedArgs (σ ω : Type) where
  Key : Option σ
  Value : SchemaOrOpts σ ω
  opts : Option ω
deriving DecidableEq, Repr

/-- Model of the dispatch (lines 138–155): `if (arg2 && arg3)` both present
takes them as (key, value, options); else a present `arg2` is key/value
exactly when it is a validator instance and (value, options) otherwise;
else one argument is the value validator alone. -/
def looseRecordResolve {σ ω : Type} (arg1 : σ)
    (arg2 : Option (SchemaOrOpts σ ω)) (arg3 : Option ω) : ResolvedArgs σ ω :=
  match arg2, arg3 with
  | some a2, some a3 => ⟨some arg1, a2, some a3⟩
  | some (.schema s), none => ⟨some arg1, .schema s, none⟩
  | some (.opts o), none => ⟨none, .schema arg1, some o⟩
  | none, _ => ⟨none, .schema arg1, none⟩

/-- The runtime default key schema is `z.any()` (line 138); on the keys
delivered by `Object.entries` — always strings — it passes the key through
unchanged, observationally the string-typed key check of the declared
overload type. -/
def defaultKeySchema : String → Except (List ZIssue) String := fun k => .ok k

/-- C5: the call-signature resolution follows the stated order for every
argument combination: three arguments are (key, value, options); two
arguments are (key, value) exactly when the second is a validator
instance, and (value, options) otherwise — a bare non-validator object is
options; one argument is the value validator with the default key schema
(which passes every string key through) and no diagnostics. -/
theorem LooseRecord_signature_resolution {σ ω : Type} (k v : σ) (o : ω) :
    looseRecordResolve k (some (.schema v)) (some o)
        = ⟨some k, .schema v, some o⟩
    ∧ looseRecordResolve k (some (.schema v)) (none : Option ω)
        = ⟨some k, .schema v, none⟩
    ∧ looseRecordResolve v (some (.opts o)) none
        = ⟨none, .schema v, some o⟩
    ∧ looseRecordResolve v (none : Option (SchemaOrOpts σ ω)) none
        = ⟨none, .schema v, none⟩
    ∧ ∀ s : String, defaultKeySchema s = .ok s :=
  ⟨rfl, rfl, rfl, rfl, fun _ => rfl⟩

/-! ## Claim C8: format-coercing scalar validators (lines 209–286)

Each format validator is `z.string().transform` around an external parser
treated as an opaque `parse : text → value-or-failure` primitive (the
parsers live outside this module); a parser exception becomes one `custom`
issue naming the format, at the root path. -/

/-- The single root-path `custom` issue a format validator emits when its
parser throws. -/
def formatIssue (msg : String) : ZIssue :=
  { code := .custom, path := [], message := msg, fatal := false }

/-- `z.string().transform` around a parser: non-strings fail the string
check; a parser failure becomes `[formatIssue msg]`; parser output passes
through unmodified. -/
def stringParserSchema {α : Type} (parse : String → Option α) (msg : String)
    (input : ZVal) : Except (List ZIssue) α :=
  match input with
  | .str s =>
    match parse s with
    | some v => .ok v
    | none => .error [formatIssue msg]
  | v => .error [typeIssue "string" v]

/-- `Json` (lines 209–216), over an opaque `JSON.parse`. -/
def Json {α : Type} (parseJSON : String → Option α) :
    ZVal → Except (List ZIssue) α :=
  stringParserSchema parseJSON "Invalid JSON"

/-- `Json5` (lines 219–226), over an opaque `JSON5.parse`. -/
def Json5 {α : Type} (parseJSON5 : String → Option α) :
    ZVal → Except (List ZIssue) α :=
  stringParserSchema parseJSON5 "Invalid JSON5"

/-- `Jsonc` (lines 228–235), over an opaque `parseJsonc`. -/
def Jsonc {α : Type} (parseJsonc : String → Option α) :
    ZVal → Except (List ZIssue) α :=
  stringParserSchema parseJsonc "Invalid JSONC"

/-- `Yaml` (lines 248–255), over an opaque `parseSingleYaml`. -/
def Yaml {α : Type} (parseSingleYaml : String → Option α) :
    ZVal → Except (List ZIssue) α :=
  stringParserSchema parseSingleYaml "Invalid YAML"

/-- `MultidocYaml` (lines 257–264), over an opaque `parseYaml` returning
the document sequence. -/
def MultidocYaml {α : Type} (parseYaml : String → Option (List α)) :
    ZVal → Except (List ZIssue) (List α) :=
  stringParserSchema parseYaml "Invalid YAML"

/-- `Toml` (lines 279–286), over an opaque `parseToml`. -/
def Toml {α : Type} (parseToml : String → Option α) :
    ZVal → Except (List ZIssue) α :=
  stringParserSchema parseToml "Invalid TOML"

lemma stringParserSchema_spec {α : Type} (parse : String → Option α)
    (msg : String) (s : String) :
    (parse s = none →
      stringParserSchema parse msg (.str s) = .error [formatIssue msg])
    ∧ (∀ v, parse s = some v →
      stringParserSchema parse msg (.str s) = .ok v) := by
  constructor
  · intro hnone
    show (match parse s with
      | some v => Except.ok v
      | none => Except.error [formatIssue msg]) = _
    rw [hnone]
  · intro v hsome
    show (match parse s with
      | some v => Except.ok v
      | none => Except.error [formatIssue msg]) = _
    rw [hsome]

/-- C8: for each of the six format validators and every textual input, a
parser failure yields exactly one issue of code `custom` whose message
identifies the format, at the root path, with no partial output, and a
parser success yields the parsed value unmodified. -/
theorem format_validators_spec {α : Type}
    (pJ pJ5 pJc pY pT : String → Option α)
    (pMY : String → Option (List α)) (s : String) :
    ((pJ s = none → Json pJ (.str s) = .error [formatIssue "Invalid JSON"])
      ∧ (∀ v, pJ s = some v → Json pJ (.str s) = .ok v))
    ∧ ((pJ5 s = none → Json5 pJ5 (.str s) = .error [formatIssue "Invalid JSON5"])
      ∧ (∀ v, pJ5 s = some v → Json5 pJ5 (.str s) = .ok v))
    ∧ ((pJc s = none → Jsonc pJc (.str s) = .error [formatIssue "Invalid JSONC"])
      ∧ (∀ v, pJc s = some v → Jsonc pJc (.str s) = .ok v))
    ∧ ((pY s = none → Yaml pY (.str s) = .error [formatIssue "Invalid YAML"])
      ∧ (∀ v, pY s = some v → Yaml pY (.str s) = .ok v))
    ∧ ((pMY s = none →
          MultidocYaml pMY (.str s) = .error [formatIssue "Invalid YAML"])
      ∧ (∀ v, pMY s = some v → MultidocYaml pMY (.str s) = .ok v))
    ∧ ((pT s = none → Toml pT (.str s) = .error [formatIssue "Invalid TOML"])
      ∧ (∀ v, pT s = some v → Toml pT (.str s) = .ok v))
    ∧ (formatIssue "Invalid JSON").code = .custom
    ∧ (formatIssue "Invalid JSON").path = [] :=
  ⟨stringParserSchema_spec pJ _ s, stringParserSchema_spec pJ5 _ s,
   stringParserSchema_spec pJc _ s, stringParserSchema_spec pY _ s,
   stringParserSchema_spec pMY _ s, stringParserSchema_spec pT _ s,
   rfl, rfl⟩

/-- A parser rejecting everything and one accepting everything instantiate
both branches of the C8 theorem. -/
theorem format_validators_spec_witness :
    ((fun _ : String => (none : Option ZVal)) "\x7b" = none
      ∧ Json (fun _ : String => (none : Option ZVal)) (.str "\x7b")
          = .error [formatIssue "Invalid JSON"])
    ∧ ((fun _ : String => some ZVal.null) "null" = some ZVal.null
      ∧ Json (fun _ : String => some ZVal.null) (.str "null") = .ok ZVal.null) := by
  constructor
  · exact ⟨rfl, ((format_validators_spec (fun _ => none) (fun _ => none)
      (fun _ => none) (fun _ => none) (fun _ => none)
      (fun _ => (none : Option (List ZVal))) "\x7b").1).1 rfl⟩
  · exact ⟨rfl, ((format_validators_spec (fun _ => some ZVal.null)
      (fun _ => some ZVal.null) (fun _ => some ZVal.null)
      (fun _ => some ZVal.null) (fun _ => some ZVal.null)
      (fun _ => (none : Option (List ZVal))) "null").1).2 ZVal.null rfl⟩

/-! ## Claim C9: `UtcDate` (lines 237–246)

The source delegates to luxon's `DateTime.fromISO(str, { zone: 'utc' })`,
which is library code outside this repository; the parser below is
modelled from the specification's description of its semantics. -/

/-- The components of an ISO-8601 timestamp; `offset` is the explicit
zone offset in minutes when one is written, `none` otherwise. -/
structure ISOFields where
  year : Nat
  month : Nat
  day : Nat
  hour : Nat
  minute : Nat
  second : Nat
  offset : Option Int
deriving DecidableEq, Repr

def digitVal (c : Char) : Option Nat :=
  if c.isDigit then some (c.toNat - 48) else none

/-- Modelled from the spec: the zone-offset tail of an ISO-8601 timestamp
(`DateTime.fromISO` accepts an absent designator, `Z`, or `±HH:MM`). -/
def parseOffsetTail : List Char → Option (Option Int)
  | [] => some none
  | ['Z'] => some (some 0)
  | [sign, o1, o2, ':', p1, p2] =>
    match digitVal o1, digitVal o2, digitVal p1, digitVal p2 with
    | some a, some b, some c, some d =>
      if sign = '+' then some (some ((a * 10 + b) * 60 + (c * 10 + d) : Int))
      else if sign = '-' then some (some (-((a * 10 + b) * 60 + (c * 10 + d) : Int)))
      else none
    | _, _, _, _ => none
  | _ => none

/-- Modelled from the spec: the `YYYY-MM-DDTHH:MM:SS` shape of an ISO-8601
timestamp as consumed by luxon's `DateTime.fromISO`, which is outside this
repository (the date grammar itself is declared an opaque external
primitive; this models the shape the claim's inputs use). -/
def parseISO (s : String) : Option ISOFields :=
  match s.toList with
  | y1 :: y2 :: y3 :: y4 :: '-' :: m1 :: m2 :: '-' :: d1 :: d2 :: 'T' ::
      h1 :: h2 :: ':' :: n1 :: n2 :: ':' :: e1 :: e2 :: rest =>
    match digitVal y1, digitVal y2, digitVal y3, digitVal y4,
        digitVal m1, digitVal m2, digitVal d1, digitVal d2,
        digitVal h1, digitVal h2, digitVal n1, digitVal n2,
        digitVal e1, digitVal e2 with
    | some a, some b, some c, some d, some e, some f, some g, some h,
      some i, some j, some k, some l, some m, some n =>
      match parseOffsetTail rest with
      | some off =>
        some { year := ((a * 10 + b) * 10 + c) * 10 + d
               month := e * 10 + f
               day := g * 10 + h
               hour := i * 10 + j
               minute := k * 10 + l
               second := m * 10 + n
               offset := off }
      | none => none
    | _, _, _, _, _, _, _, _, _, _, _, _, _, _ => none
  | _ => none

def isLeapYear (y : Nat) : Bool :=
  (y % 4 == 0 && y % 100 != 0) || y % 400 == 0

def daysInMonth (y m : Nat) : Nat :=
  if m = 2 then (if isLeapYear y then 29 else 28)
  else if m = 4 ∨ m = 6 ∨ m = 9 ∨ m = 11 then 30
  else 31

/-- Modelled from the spec: luxon rejects impossible calendar dates and
out-of-range time fields instead of clamping them. -/
def validFields (f : ISOFields) : Bool :=
  decide (1 ≤ f.month) && decide (f.month ≤ 12)
    && decide (1 ≤ f.day) && decide (f.day ≤ daysInMonth f.year f.month)
    && decide (f.hour ≤ 23) && decide (f.minute ≤ 59) && decide (f.second ≤ 59)

/-- Days from the civil epoch 1970-01-01 (standard civil-calendar
conversion). -/
def daysFromCivil (y m d : Int) : Int :=
  let y2 := if m ≤ 2 then y - 1 else y
  let era := (if 0 ≤ y2 then y2 else y2 - 399) / 400
  let yoe := y2 - era * 400
  let mp := (m + 9) % 12
  let doy := (153 * mp + 2) / 5 + d - 1
  let doe := yoe * 365 + yoe / 4 - yoe / 100 + doy
  era * 146097 + doe - 719468

/-- The instant (seconds since the epoch) denoted by the fields read as a
UTC wall-clock time. -/
def epochAssumingUTC (f : ISOFields) : Int :=
  daysFromCivil (f.year : Int) (f.month : Int) (f.day : Int) * 86400
    + (f.hour : Int) * 3600 + (f.minute : Int) * 60 + (f.second : Int)

/-- The instant denoted by the fields: an explicit offset wins, otherwise
the configured zone's offset applies. -/
def epochSeconds (f : ISOFields) (zoneOffset : Int) : Int :=
  epochAssumingUTC f - (f.offset.getD zoneOffset) * 60

/-- Modelled from the spec: luxon's `DateTime.fromISO(str, zone)` — parse,
reject invalid calendar dates, and resolve the instant using the explicit
offset or else the given zone's offset. -/
def fromISO (s : String) (zoneOffset : Int) : Option Int :=
  match parseISO s with
  | some f => if validFields f then some (epochSeconds f zoneOffset) else none
  | none => none

/-- `UtcDate` (lines 237–246): `z.string().transform` that parses with the
UTC zone (offset 0) and turns an invalid date into one custom issue. -/
def UtcDate (input : ZVal) : Except (List ZIssue) Int :=
  match input with
  | .str s =>
    match fromISO s 0 with
    | some t => .ok t
    | none => .error [formatIssue "Invalid date"]
  | v => .error [typeIssue "string" v]

/-- UTC midnight of a calendar day, as an epoch instant. -/
def utcMidnight (y m d : Nat) : Int := daysFromCivil y m d * 86400

/-- C9: `"2024-01-01T00:00:00Z"` parses to UTC midnight of January 1 2024;
a timestamp without an explicit offset is interpreted with offset zero
(UTC, not local time); non-date text and the impossible calendar date
`"2024-02-30T00:00:00Z"` fail with a custom issue instead of being
clamped. -/
theorem UtcDate_iso_utc_semantics :
    UtcDate (.str "2024-01-01T00:00:00Z") = .ok (utcMidnight 2024 1 1)
    ∧ utcMidnight 2024 1 1 = 1704067200
    ∧ UtcDate (.str "not-a-date") = .error [formatIssue "Invalid date"]
    ∧ UtcDate (.str "2024-02-30T00:00:00Z") = .error [formatIssue "Invalid date"]
    ∧ (∀ s f, parseISO s = some f → f.offset = none → validFields f = true →
        UtcDate (.str s) = .ok (epochAssumingUTC f)) := by
  refine ⟨rfl, rfl, rfl, rfl, ?_⟩
  intro s f hparse hoff hvalid
  have hfrom : fromISO s 0 = some (epochAssumingUTC f) := by
    unfold fromISO
    rw [hparse]
    simp [hvalid, epochSeconds, hoff]
  show (match fromISO s 0 with
    | some t => Except.ok t
    | none => Except.error [formatIssue "Invalid date"]) = _
  rw [hfrom]

theorem UtcDate_iso_utc_semantics_witness :
    parseISO "2024-01-01T00:00:00"
        = some ⟨2024, 1, 1, 0, 0, 0, none⟩
    ∧ (⟨2024, 1, 1, 0, 0, 0, none⟩ : ISOFields).offset = none
    ∧ validFields ⟨2024, 1, 1, 0, 0, 0, none⟩ = true
    ∧ UtcDate (.str "2024-01-01T00:00:00")
        = .ok (epochAssumingUTC ⟨2024, 1, 1, 0, 0, 0, none⟩) := by
  refine ⟨rfl, rfl, rfl, ?_⟩
  exact UtcDate_iso_utc_semantics.2.2.2.2 "2024-01-01T00:00:00"
    ⟨2024, 1, 1, 0, 0, 0, none⟩ rfl rfl rfl
